import Mathlib

/-!
Verification model of the `FromIPSummaryDump` element
(src/elements/analysis/fromipsumdump.hh).

The repository ships only the element's header: the `Content` enumeration,
the constants `SAMPLING_SHIFT`, `BUFFER_SIZE` and `tcp_flags_word`, and the
state-field declarations are taken from that header.  Every function body is
absent from the repository, so the operational definitions below are modelled
from the specification (its sections are cited in the doc comments).
-/

namespace IPSumDump

/-- Field kinds, from the `Content` enumeration in the header
(`W_NONE` and `W_LAST` are sentinels, everything between is a data field). -/
inductive Content where
  | W_NONE
  | W_TIMESTAMP
  | W_TIMESTAMP_SEC
  | W_TIMESTAMP_USEC
  | W_SRC
  | W_DST
  | W_LENGTH
  | W_PROTO
  | W_IPID
  | W_SPORT
  | W_DPORT
  | W_TCP_SEQ
  | W_TCP_ACK
  | W_TCP_FLAGS
  | W_PAYLOAD_LENGTH
  | W_COUNT
  | W_FRAG
  | W_FRAGOFF
  | W_PAYLOAD
  | W_LAST
deriving DecidableEq

/-- From the header: fixed-point probabilities carry 28 fractional bits. -/
def SAMPLING_SHIFT : Nat := 28

/-- From the header: capacity of the buffered reader's window. -/
def BUFFER_SIZE : Nat := 32768

/-- From the header: the ordered one-letter TCP flag alphabet
`tcp_flags_word = "FSRPAUXY"`, as a character list. -/
def tcp_flags_word : List Char := ['F', 'S', 'R', 'P', 'A', 'U', 'X', 'Y']

/-- Modelled from the spec (§4.2, bodies of `parse_content` missing from the
repository): lower-casing of one ASCII character, used for the spec's
`canonicalize` on field names. -/
def canonChar (c : Char) : Char :=
  if 'A' ≤ c ∧ c ≤ 'Z' then Char.ofNat (c.toNat + 32) else c

/-- Modelled from the spec (§4.2): canonical (lower-case) form of a token. -/
def canonTok (t : List Char) : List Char := t.map canonChar

/-- Modelled from the spec (§4.2, the fixed field-name table backing
`parse_content`; the table itself is not in the repository):
association list from canonical field names to field kinds. -/
def fieldTable : List (List Char × Content) :=
  [("timestamp".toList, Content.W_TIMESTAMP),
   ("ts_sec".toList, Content.W_TIMESTAMP_SEC),
   ("ts_usec".toList, Content.W_TIMESTAMP_USEC),
   ("src".toList, Content.W_SRC),
   ("dst".toList, Content.W_DST),
   ("length".toList, Content.W_LENGTH),
   ("proto".toList, Content.W_PROTO),
   ("ipid".toList, Content.W_IPID),
   ("sport".toList, Content.W_SPORT),
   ("dport".toList, Content.W_DPORT),
   ("tcp_seq".toList, Content.W_TCP_SEQ),
   ("tcp_ack".toList, Content.W_TCP_ACK),
   ("tcp_flags".toList, Content.W_TCP_FLAGS),
   ("payload_length".toList, Content.W_PAYLOAD_LENGTH),
   ("count".toList, Content.W_COUNT),
   ("frag".toList, Content.W_FRAG),
   ("fragoff".toList, Content.W_FRAGOFF),
   ("payload".toList, Content.W_PAYLOAD)]

/-- Modelled from the spec (§4.2): first-match lookup in an association list. -/
def lookupAssoc : List (List Char × Content) → List Char → Option Content
  | [], _ => none
  | (n, k) :: rest, key => if n = key then some k else lookupAssoc rest key

/-- Modelled from the spec (§4.2, `lookup_field`): case-insensitive match of a
field name against the fixed table; no match is a `FormatError` (`none`).
Keeps the header's name `parse_content`. -/
def parse_content (t : List Char) : Option Content :=
  lookupAssoc fieldTable (canonTok t)

/-- Modelled from the spec (§4.2): reverse lookup in the table. -/
def unparseAssoc : List (List Char × Content) → Content → Option (List Char)
  | [], _ => none
  | (n, k2) :: rest, k => if k2 = k then some n else unparseAssoc rest k

/-- Modelled from the spec (§4.2, `name_of`): canonical name of a field kind;
sentinel kinds have no name.  Keeps the header's name `unparse_content`. -/
def unparse_content (k : Content) : Option (List Char) :=
  unparseAssoc fieldTable k

/-- Modelled from the spec (§4.3): position of a character in the fixed flag
alphabet, generic scan. -/
def flagIndexAux : List Char → Char → Option Nat
  | [], _ => none
  | a :: l, c => if a = c then some 0 else (flagIndexAux l c).map (· + 1)

/-- Modelled from the spec (§4.3): position of a flag code in
`tcp_flags_word`, `none` for characters outside the alphabet. -/
def flagIndex (c : Char) : Option Nat := flagIndexAux tcp_flags_word c

/-- Modelled from the spec (§4.3): parse a compact flag-code string; each
character at alphabet position `i` sets bit `i`; any character outside the
alphabet is a `FormatError` (`none`). -/
def parseFlags : List Char → Option Nat
  | [] => some 0
  | c :: cs =>
    match flagIndex c, parseFlags cs with
    | some i, some v => some (v ||| (1 <<< i))
    | _, _ => none

/-- Modelled from the spec (§4.3): digit accumulator for numeric tokens. -/
def parseNatAux : List Char → Nat → Option Nat
  | [], acc => some acc
  | c :: cs, acc =>
    if '0' ≤ c ∧ c ≤ '9' then parseNatAux cs (acc * 10 + (c.toNat - 48))
    else none

/-- Modelled from the spec (§4.3): numeric fields require a nonempty,
fully-consumed decimal literal; anything else is a `FormatError`. -/
def parseNat? (cs : List Char) : Option Nat :=
  if cs.isEmpty then none else parseNatAux cs 0

/-- Modelled from the spec (§4.3): split a token at a separator character,
keeping empty pieces. -/
def splitAux (sep : Char) : List Char → List Char → List (List Char)
  | [], cur => [cur.reverse]
  | c :: cs, cur =>
    if c = sep then cur.reverse :: splitAux sep cs []
    else splitAux sep cs (c :: cur)

/-- Modelled from the spec (§4.3): split a token on a separator. -/
def splitOnChar (sep : Char) (l : List Char) : List (List Char) :=
  splitAux sep l []

/-- Modelled from the spec (§4.3): a timestamp token is `sec` or `sec.usec`. -/
def parseTimestamp (t : List Char) : Option (Nat × Nat) :=
  match (splitOnChar '.' t).mapM parseNat? with
  | some [s] => some (s, 0)
  | some [s, u] => some (s, u)
  | _ => none

/-- Modelled from the spec (§4.3): an address token is a dotted quad. -/
def parseIPAddr (t : List Char) : Option Nat :=
  match (splitOnChar '.' t).mapM parseNat? with
  | some [a, b, c, d] =>
    if a ≤ 255 ∧ b ≤ 255 ∧ c ≤ 255 ∧ d ≤ 255 then
      some (((a * 256 + b) * 256 + c) * 256 + d)
    else none
  | _ => none

/-- Modelled from the spec (§4.1): token separators for record lines. -/
def isSpaceChar (c : Char) : Bool := c = ' ' || c = '\t'

/-- Modelled from the spec (§4.3): whitespace tokenizer, accumulator form. -/
def tokAux : List Char → List Char → List (List Char)
  | [], cur => if cur.isEmpty then [] else [cur.reverse]
  | c :: cs, cur =>
    if isSpaceChar c then
      if cur.isEmpty then tokAux cs [] else cur.reverse :: tokAux cs []
    else tokAux cs (c :: cur)

/-- Modelled from the spec (§4.3): tokenize a data line on whitespace. -/
def tokenize (l : List Char) : List (List Char) := tokAux l []

/-- Modelled from the spec (§4.1, body of `read_line` missing from the
repository): extract the complete newline-terminated lines of one refill
window, returning them with terminators stripped together with the trailing
partial line (the carried bytes of `_save_char` stitching). -/
def extractLinesAux : List Char → List Char → List (List Char) × List Char
  | [], cur => ([], cur.reverse)
  | c :: cs, cur =>
    if c = '\n' then
      match extractLinesAux cs [] with
      | (ls, p) => (cur.reverse :: ls, p)
    else extractLinesAux cs (c :: cur)

/-- Modelled from the spec (§4.1): complete lines and trailing partial line
of a byte window. -/
def extractLines (bytes : List Char) : List (List Char) × List Char :=
  extractLinesAux bytes []

/-- Modelled from the spec (§4.1): the buffered reader consumes the source
refill by refill, carrying the trailing partial bytes of each window and
prepending them to the next refill; at end of input the carried partial
bytes, if any, form the final line. -/
def chunkedLinesAux : List (List Char) → List Char → List (List Char)
  | [], carry => if carry.isEmpty then [] else [carry]
  | c :: cs, carry =>
    match extractLines (carry ++ c) with
    | (ls, p) => ls ++ chunkedLinesAux cs p

/-- Modelled from the spec (§4.1): all lines yielded by `next_line` when the
source delivers its bytes in the given refill chunks. -/
def chunkedLines (chunks : List (List Char)) : List (List Char) :=
  chunkedLinesAux chunks []

/-- Modelled from the spec (§4.1): reference line splitter over the unsplit
byte stream, accumulator form. -/
def linesAux : List Char → List Char → List (List Char)
  | [], cur => if cur.isEmpty then [] else [cur.reverse]
  | c :: cs, cur =>
    if c = '\n' then cur.reverse :: linesAux cs []
    else linesAux cs (c :: cur)

/-- Modelled from the spec (§4.1): the lines of a byte stream presented
without any refill split. -/
def refLines (bytes : List Char) : List (List Char) := linesAux bytes []

/-- Modelled from the spec (§3, `FieldValue`/`SyntheticPacket` inputs): the
values decoded from one record.  `count` is the replica count (default 1);
`hasProto` records whether the record supplied a protocol. -/
structure RecordData where
  tsSec : Nat
  tsUsec : Nat
  src : Nat
  dst : Nat
  iplen : Nat
  proto : Nat
  hasProto : Bool
  ipid : Nat
  sport : Nat
  dport : Nat
  tcpSeq : Nat
  tcpAck : Nat
  tcpFlags : Nat
  payloadLen : Nat
  count : Nat
  frag : Nat
  fragoff : Nat
deriving DecidableEq

/-- Modelled from the spec (§4.3): the all-zero record used as decode base
when the zero-fill option is set. -/
def zeroRecord : RecordData :=
  { tsSec := 0, tsUsec := 0, src := 0, dst := 0, iplen := 0, proto := 0,
    hasProto := false, ipid := 0, sport := 0, dport := 0, tcpSeq := 0,
    tcpAck := 0, tcpFlags := 0, payloadLen := 0, count := 1, frag := 0,
    fragoff := 0 }

/-- Modelled from the spec (§6, configuration surface): the element's
configured options.  `samplingProb` is the fixed-point `_sampling_prob`
threshold of the header.  `garbage` and `filler` model the unspecified
filler contents of packet data not set by the dump when zero-fill is off. -/
structure Config where
  stop : Bool
  zero : Bool
  defaultProto : Nat
  multipacket : Bool
  samplingProb : Nat
  garbage : RecordData
  filler : Nat → Nat

/-- Modelled from the spec (§4.3): decoding starts from zeroes when the
zero-fill option is set, otherwise from the unspecified filler contents;
the replica count always defaults to 1 and no protocol is marked present. -/
def baseRecord (cfg : Config) : RecordData :=
  if cfg.zero then zeroRecord
  else { cfg.garbage with hasProto := false, count := 1 }

/-- Modelled from the spec (§4.3): interpret one token against one field
kind; `none` is a recoverable `FormatError` for the whole record. -/
def decodeField (r : RecordData) (k : Content) (tok : List Char) :
    Option RecordData :=
  match k with
  | .W_NONE => some r
  | .W_TIMESTAMP =>
    (parseTimestamp tok).map (fun su => { r with tsSec := su.1, tsUsec := su.2 })
  | .W_TIMESTAMP_SEC => (parseNat? tok).map (fun v => { r with tsSec := v })
  | .W_TIMESTAMP_USEC => (parseNat? tok).map (fun v => { r with tsUsec := v })
  | .W_SRC => (parseIPAddr tok).map (fun v => { r with src := v })
  | .W_DST => (parseIPAddr tok).map (fun v => { r with dst := v })
  | .W_LENGTH => (parseNat? tok).map (fun v => { r with iplen := v })
  | .W_PROTO =>
    (parseNat? tok).bind (fun v =>
      if v ≤ 255 then some { r with proto := v, hasProto := true } else none)
  | .W_IPID => (parseNat? tok).map (fun v => { r with ipid := v })
  | .W_SPORT => (parseNat? tok).map (fun v => { r with sport := v })
  | .W_DPORT => (parseNat? tok).map (fun v => { r with dport := v })
  | .W_TCP_SEQ => (parseNat? tok).map (fun v => { r with tcpSeq := v })
  | .W_TCP_ACK => (parseNat? tok).map (fun v => { r with tcpAck := v })
  | .W_TCP_FLAGS => (parseFlags tok).map (fun v => { r with tcpFlags := v })
  | .W_PAYLOAD_LENGTH => (parseNat? tok).map (fun v => { r with payloadLen := v })
  | .W_COUNT => (parseNat? tok).map (fun v => { r with count := v })
  | .W_FRAG => (parseNat? tok).map (fun v => { r with frag := v })
  | .W_FRAGOFF => (parseNat? tok).map (fun v => { r with fragoff := v })
  | .W_PAYLOAD => some r
  | .W_LAST => some r

/-- Modelled from the spec (§4.3): fold the tokens of a data line over the
active schema; missing trailing tokens leave fields at their defaults,
extra tokens are ignored, a failing token fails the whole record. -/
def decodeFields : List Content → List (List Char) → RecordData →
    Option RecordData
  | _, [], r => some r
  | [], _ :: _, r => some r
  | k :: ks, t :: ts, r =>
    match decodeField r k t with
    | some r2 => decodeFields ks ts r2
    | none => none

/-- Modelled from the spec (§4.3, body of `read_packet` missing from the
repository): decode a tokenized data line against the active schema. -/
def decodeLine (cfg : Config) (contents : List Content)
    (toks : List (List Char)) : Option RecordData :=
  decodeFields contents toks (baseRecord cfg)

/-- Modelled from the spec (§3, non-goal note: header length fields are not
made self-consistent with the buffer): fixed size of the synthesized packet
buffer, independent of the decoded length fields. -/
def packetDataSize : Nat := 40

/-- Modelled from the spec (§3, `SyntheticPacket`): the produced packet.
Header-like fields come from the decoded record, length-like fields live in
out-of-band annotations, and the payload is the unset buffer region. -/
structure Packet where
  ipV : Nat
  ipHl : Nat
  src : Nat
  dst : Nat
  proto : Nat
  ipid : Nat
  sport : Nat
  dport : Nat
  tcpSeq : Nat
  tcpAck : Nat
  tcpFlags : Nat
  tsSec : Nat
  tsUsec : Nat
  extraLengthAnno : Nat
  payloadLenAnno : Nat
  fragoffAnno : Nat
  countAnno : Nat
  payload : List Nat
deriving DecidableEq

/-- Modelled from the spec (§4.3, §4.5): build one synthetic packet from a
decoded record.  IP version is fixed at 4 and header length at 5 words; the
protocol falls back to the configured default when the record has none;
`extra` is the accumulated multipacket extra-length offset; `cnt` is the
count annotation; the payload is all zero under zero-fill and unspecified
filler otherwise, never recomputed from the header fields. -/
def buildPacket (cfg : Config) (r : RecordData) (extra : Nat) (cnt : Nat) :
    Packet :=
  { ipV := 4, ipHl := 5, src := r.src, dst := r.dst,
    proto := if r.hasProto then r.proto else cfg.defaultProto,
    ipid := r.ipid, sport := r.sport, dport := r.dport,
    tcpSeq := r.tcpSeq, tcpAck := r.tcpAck, tcpFlags := r.tcpFlags,
    tsSec := r.tsSec, tsUsec := r.tsUsec,
    extraLengthAnno := (r.iplen - packetDataSize) + extra,
    payloadLenAnno := r.payloadLen,
    fragoffAnno := r.fragoff,
    countAnno := cnt,
    payload := if cfg.zero then List.replicate packetDataSize 0
               else (List.range packetDataSize).map cfg.filler }

/-- Modelled from the spec (§4.4, `gate`): a draw, reduced to the range of
the fixed-point probability representation, is accepted exactly when it is
strictly below the threshold. -/
def gate (threshold draw : Nat) : Bool :=
  decide (draw % 2 ^ SAMPLING_SHIFT < threshold)

/-- Modelled from the spec (§3, `SamplingThreshold`): the configured real
probability is converted once to fixed point by rounding to the nearest
multiple of `2 ^ -SAMPLING_SHIFT`. -/
def samplingThreshold (p : ℚ) : Nat :=
  (round (p * 2 ^ SAMPLING_SHIFT)).toNat

/-- Modelled from the spec (§4.4): the realized probability of a fixed-point
threshold. -/
def realizedProb (t : Nat) : ℚ := (t : ℚ) / 2 ^ SAMPLING_SHIFT

/-- Modelled from the spec (§6, the read-only `sampling_prob` handler):
callers query the realized, quantized probability. -/
def sampling_prob_handler (cfg : Config) : ℚ := realizedProb cfg.samplingProb

/-- Modelled from the spec (§4.1, §7): one event delivered by the buffered
reader, either the next line or a genuine read failure after successful
open (`IOError`). -/
inductive ReadEv where
  | ioError : ReadEv
  | line : List Char → ReadEv
deriving DecidableEq

/-- Modelled from the spec (§4.6, §5): the mutable stage state.  `input` is
the line-level view of the byte source (a `ReadEv.ioError` entry is a read
failure after successful open); `draws` is the stream of sampling draws;
`workPacket` is the pending multipacket continuation of the header's
`_work_packet`; `complaints` counts `FormatError` reports and `ioReports`
counts `IOError` reports. -/
structure State where
  active : Bool
  exhausted : Bool
  stopRequested : Bool
  formatComplaint : Bool
  complaints : Nat
  ioReports : Nat
  contents : List Content
  workPacket : Option (RecordData × Nat)
  multipacketExtraLength : Nat
  draws : List Nat
  input : List ReadEv
deriving DecidableEq

/-- Modelled from the spec (§7): log a `FormatError` complaint, at most once
per run, guarded by the header's `_format_complaint` bit. -/
def complain (s : State) : State :=
  { s with formatComplaint := true,
           complaints := if s.formatComplaint then s.complaints
                         else s.complaints + 1 }

/-- Modelled from the spec (§4.2): resolve a list of directive tokens via
`parse_content`; any unresolved token fails the whole list. -/
def resolveAll : List (List Char) → Option (List Content)
  | [] => some []
  | t :: ts =>
    match parse_content t, resolveAll ts with
    | some k, some ks => some (k :: ks)
    | _, _ => none

/-- Modelled from the spec (§4.2, body of `bang_data` missing from the
repository): resolve every token of a `!data` directive; if all resolve the
new schema replaces the old one, otherwise the directive is a recoverable
`FormatError` (`true`) and the schema is returned unchanged. -/
def bang_data (toks : List (List Char)) (contents : List Content) :
    List Content × Bool :=
  match resolveAll toks with
  | some ks => (ks, false)
  | none => (contents, true)

/-- Modelled from the spec (§4.2): the `!data` directive marker. -/
def bangMarker : List Char := "!data".toList

/-- Modelled from the spec (§4.2): non-`!data` directive-marked lines are
inert comments. -/
def isDirectiveTok (t : List Char) : Bool :=
  match t with
  | [] => false
  | c :: _ => c = '!' || c = '#'

/-- Modelled from the spec (§4.5): attempt the pending replicas of one
record.  Each candidate is gated independently; a rejected candidate is
skipped and the next one tried without reading new input.  Returns the
emitted packet (if any), the replicas still pending, the accumulated
extra-length offset and the remaining draw stream. -/
def replicaLoop (cfg : Config) (r : RecordData) (cnt : Nat) :
    Nat → Nat → List Nat → Option Packet × Nat × Nat × List Nat
  | 0, extra, draws => (none, 0, extra, draws)
  | rem + 1, extra, draws =>
    if gate cfg.samplingProb (draws.headD 0) then
      (some (buildPacket cfg r extra cnt), rem, extra + r.iplen, draws.tail)
    else replicaLoop cfg r cnt rem (extra + r.iplen) draws.tail

/-- Modelled from the spec (§4.6, the `produce_next` state machine backing
`pull` and `run_scheduled`, bodies missing from the repository), with an
explicit recursion budget: one production step.  A budget of
`input.length + 2` always suffices (each recursive call either consumes one
input line or clears the pending continuation before consuming lines). -/
def produceNextF (cfg : Config) : Nat → State → Option Packet × State
  | 0, s => (none, s)
  | fuel + 1, s =>
    if s.active = true ∧ s.exhausted = false then
      match s.workPacket with
      | some (r, rem) =>
        match replicaLoop cfg r 1 rem s.multipacketExtraLength s.draws with
        | (some p, rem2, extra2, draws2) =>
          (some p, { s with workPacket := if rem2 = 0 then none
                                          else some (r, rem2),
                            multipacketExtraLength := extra2,
                            draws := draws2 })
        | (none, _, extra2, draws2) =>
          produceNextF cfg fuel
            { s with workPacket := none, multipacketExtraLength := extra2,
                     draws := draws2 }
      | none =>
        match s.input with
        | [] =>
          (none, { s with exhausted := true,
                          stopRequested := s.stopRequested || cfg.stop })
        | ReadEv.ioError :: rest =>
          (none, { s with input := rest, exhausted := true,
                          ioReports := s.ioReports + 1 })
        | ReadEv.line line :: rest =>
          match tokenize line with
          | [] => produceNextF cfg fuel { s with input := rest }
          | t :: toks =>
            if t = bangMarker then
              match bang_data toks s.contents with
              | (cs2, true) =>
                produceNextF cfg fuel
                  (complain { s with input := rest, contents := cs2 })
              | (cs2, false) =>
                produceNextF cfg fuel { s with input := rest, contents := cs2 }
            else if isDirectiveTok t then
              produceNextF cfg fuel { s with input := rest }
            else
              match decodeLine cfg s.contents (t :: toks) with
              | none =>
                produceNextF cfg fuel (complain { s with input := rest })
              | some r =>
                match replicaLoop cfg r
                    (if cfg.multipacket then 1 else r.count)
                    (if cfg.multipacket then r.count else 1) 0 s.draws with
                | (some p, rem2, extra2, draws2) =>
                  (some p, { s with input := rest,
                                    workPacket := if rem2 = 0 then none
                                                  else some (r, rem2),
                                    multipacketExtraLength := extra2,
                                    draws := draws2 })
                | (none, _, extra2, draws2) =>
                  produceNextF cfg fuel
                    { s with input := rest, workPacket := none,
                             multipacketExtraLength := extra2,
                             draws := draws2 }
    else (none, s)

/-- Modelled from the spec (§4.6, `produce_next`): the single production
operation shared by push- and pull-driven callers. -/
def produceNext (cfg : Config) (s : State) : Option Packet × State :=
  produceNextF cfg (s.input.length + 1 + 1) s

/-- Modelled from the spec (§4.6): iterate `produce_next`, collecting the
outcome of each invocation. -/
def produceN (cfg : Config) : Nat → State → List (Option Packet) × State
  | 0, s => ([], s)
  | n + 1, s =>
    match produceNext cfg s with
    | (p, s1) =>
      match produceN cfg n s1 with
      | (ps, s2) => (p :: ps, s2)

/-- Modelled from the spec (§7): the complaint-flooding invariant — at most
one `FormatError` report, and none before the `_format_complaint` bit is
set. -/
def stateInv (s : State) : Prop :=
  s.complaints ≤ 1 ∧ (s.formatComplaint = false → s.complaints = 0)

/-- Concrete zero-fill, always-accept, single-packet configuration used to
instantiate the theorems below. -/
def cfgZ : Config :=
  { stop := false, zero := true, defaultProto := 6, multipacket := false,
    samplingProb := 2 ^ SAMPLING_SHIFT, garbage := zeroRecord,
    filler := fun _ => 0 }

/-- Concrete multipacket-enabled configuration. -/
def cfgM : Config :=
  { stop := false, zero := true, defaultProto := 6, multipacket := true,
    samplingProb := 2 ^ SAMPLING_SHIFT, garbage := zeroRecord,
    filler := fun _ => 0 }

/-- Concrete fresh stage state over a one-record source. -/
def stZ : State :=
  { active := true, exhausted := false, stopRequested := false,
    formatComplaint := false, complaints := 0, ioReports := 0,
    contents := [Content.W_SRC, Content.W_LENGTH], workPacket := none,
    multipacketExtraLength := 0, draws := [],
    input := [ReadEv.line ("10.0.0.1 100".toList)] }

/-- Concrete state over a one-record multipacket source with count 3. -/
def stM : State :=
  { stZ with contents := [Content.W_SRC, Content.W_DST, Content.W_COUNT],
             input := [ReadEv.line ("10.0.0.3 10.0.0.4 3".toList)] }

/-- Concrete state whose source fails with a read error. -/
def stE : State :=
  { stZ with input := [ReadEv.ioError] }

/-- Concrete state with a malformed record followed by a valid one. -/
def stF : State :=
  { stZ with contents := [Content.W_LENGTH],
             input := [ReadEv.line ("abc".toList),
                       ReadEv.line ("100".toList)] }

/-- The record decoded from the line of `stZ`. -/
def recZ : RecordData := { zeroRecord with src := 167772161, iplen := 100 }

/-- The record decoded from the line of `stM`. -/
def recM : RecordData :=
  { zeroRecord with src := 167772163, dst := 167772164, count := 3 }

/-- The state after the single read-error step of `stE`. -/
def stE2 : State := { stE with input := [], exhausted := true, ioReports := 1 }

/-- The packet produced by each multipacket call on `stM`. -/
def pktM : Packet := buildPacket cfgM recM 0 1

/-- The state after the three multipacket calls on `stM`. -/
def stM2 : State := { stM with input := [] }

/-- The record decoded from the valid line of `stF`. -/
def recF : RecordData := { zeroRecord with iplen := 100 }

/-- The state of `stF` after the drop-and-continue production step. -/
def stF2 : State :=
  { stF with input := [], formatComplaint := true, complaints := 1,
             multipacketExtraLength := 100 }

/-- A filler-heavy variant of `cfgM` used to witness determinism. -/
def cfgM2 : Config := { cfgM with garbage := recZ, filler := fun k => k + 7 }

/-- The packet produced from the single record of `stZ`. -/
def pktZ : Packet := buildPacket cfgZ recZ 0 1

/-- The state after producing the single record of `stZ`. -/
def stZ2 : State := { stZ with input := [], multipacketExtraLength := 100 }

section Lemmas

theorem lookupAssoc_mem {l : List (List Char × Content)} {key : List Char}
    {k : Content} (h : lookupAssoc l key = some k) : (key, k) ∈ l := by
  induction l with
  | nil => simp [lookupAssoc] at h
  | cons p rest ih =>
    obtain ⟨n, k2⟩ := p
    by_cases hn : n = key
    · subst hn
      simp [lookupAssoc] at h
      subst h
      exact List.mem_cons_self _ _
    · simp [lookupAssoc, hn] at h
      exact List.mem_cons_of_mem _ (ih h)

theorem lookupAssoc_none {l : List (List Char × Content)} {key : List Char}
    (h : ∀ p ∈ l, p.1 ≠ key) : lookupAssoc l key = none := by
  induction l with
  | nil => rfl
  | cons p rest ih =>
    obtain ⟨n, k2⟩ := p
    have hn : n ≠ key := h (n, k2) (List.mem_cons_self _ _)
    simp [lookupAssoc, hn]
    exact ih fun q hq => h q (List.mem_cons_of_mem _ hq)

theorem fieldTable_unparse :
    ∀ p ∈ fieldTable, unparseAssoc fieldTable p.2 = some p.1 := by decide

theorem flagIndexAux_get {l : List Char} {c : Char} {i : Nat}
    (h : flagIndexAux l c = some i) : l[i]? = some c := by
  induction l generalizing i with
  | nil => simp [flagIndexAux] at h
  | cons a rest ih =>
    by_cases ha : a = c
    · subst ha
      simp [flagIndexAux] at h
      subst h
      simp
    · simp [flagIndexAux, ha] at h
      obtain ⟨j, hj, hij⟩ := h
      subst hij
      simpa using ih hj

theorem flagIndex_inj {a b : Char} {i : Nat} (ha : flagIndex a = some i)
    (hb : flagIndex b = some i) : a = b := by
  have h1 := flagIndexAux_get ha
  have h2 := flagIndexAux_get hb
  rw [h1] at h2
  exact (Option.some.injEq _ _).mp h2

end Lemmas

/-- C4: for every defined (non-sentinel) field name, the round-trip
`unparse_content (parse_content n)` yields the canonical (lower-cased) form
of `n`; lookup is case-insensitive (it only depends on the canonical form);
and `parse_content` on any string outside the field-name table is a
`FormatError` (`none`). -/
theorem content_name_roundtrip :
    (∀ t k, parse_content t = some k → unparse_content k = some (canonTok t)) ∧
    (∀ t, (∀ p ∈ fieldTable, p.1 ≠ canonTok t) → parse_content t = none) ∧
    (∀ t u, canonTok t = canonTok u → parse_content t = parse_content u) := by
  refine ⟨?_, ?_, ?_⟩
  · intro t k h
    have hm : (canonTok t, k) ∈ fieldTable := lookupAssoc_mem h
    exact fieldTable_unparse (canonTok t, k) hm
  · intro t h
    exact lookupAssoc_none h
  · intro t u h
    unfold parse_content
    rw [h]

theorem content_name_roundtrip_witness :
    parse_content ("SRC".toList) = some Content.W_SRC ∧
    unparse_content Content.W_SRC = some ("src".toList) ∧
    parse_content ("bogus".toList) = none := by
  refine ⟨by decide, ?_, ?_⟩
  · exact content_name_roundtrip.1 ("SRC".toList) Content.W_SRC (by decide)
  · exact content_name_roundtrip.2.1 ("bogus".toList) (by decide)

/-- C9: every character of a flag-set token is matched against the fixed
ordered alphabet `tcp_flags_word = "FSRPAUXY"`; a character equal to the
code at position `i` sets bit `i` of the parsed value (and bit `i` is set
only if that code occurs), while any character outside the alphabet makes
the whole token a `FormatError` (`none`, dropping the record). -/
theorem tcp_flags_parsing :
    (∀ cs c, c ∈ cs → flagIndex c = none → parseFlags cs = none) ∧
    (∀ cs v, parseFlags cs = some v → ∀ c i, flagIndex c = some i →
      (v.testBit i = true ↔ c ∈ cs)) := by
  constructor
  · intro cs c hmem hnone
    induction cs with
    | nil => simp at hmem
    | cons a rest ih =>
      rcases List.mem_cons.mp hmem with h | h
      · subst h
        rw [parseFlags, hnone]
      · rw [parseFlags, ih h]
        cases flagIndex a <;> rfl
  · intro cs
    induction cs with
    | nil =>
      intro v hv c i hi
      simp [parseFlags] at hv
      subst hv
      simp [Nat.zero_testBit]
    | cons a rest ih =>
      intro v hv c i hi
      rw [parseFlags] at hv
      cases ha : flagIndex a with
      | none => rw [ha] at hv; cases parseFlags rest <;> simp at hv
      | some j =>
        rw [ha] at hv
        cases hr : parseFlags rest with
        | none => rw [hr] at hv; simp at hv
        | some w =>
          rw [hr] at hv
          simp at hv
          subst hv
          have hshift : Nat.testBit (1 <<< j) i = true ↔ i = j := by
            rw [Nat.testBit_shiftLeft]
            constructor
            · intro h
              have h1 := Bool.and_elim_left h
              have h2 := Bool.and_elim_right h
              have hji : j ≤ i := by simpa using h1
              have : i - j = 0 :=
                Nat.testBit_one_eq_true_iff_self_eq_zero.mp h2
              omega
            · intro h
              subst h
              simp [Nat.testBit_one_eq_true_iff_self_eq_zero]
          have hij : i = j ↔ c = a := by
            constructor
            · intro h
              subst h
              exact flagIndex_inj hi ha
            · intro h
              have hi2 : flagIndex a = some i := h ▸ hi
              rw [ha] at hi2
              exact ((Option.some.injEq _ _).mp hi2).symm
          rw [Nat.testBit_or, Bool.or_eq_true, ih w hr c i hi, hshift,
            List.mem_cons, hij]
          tauto

theorem extractLinesAux_no_nl {a : List Char} (b cur : List Char)
    (h : '\n' ∉ a) :
    extractLinesAux (a ++ b) cur = extractLinesAux b (a.reverse ++ cur) := by
  induction a generalizing cur with
  | nil => simp
  | cons c cs ih =>
    have hc : ¬c = '\n' := fun e => h (by simp [e])
    simp only [List.cons_append, extractLinesAux, if_neg hc, List.append_eq]
    rw [ih (c :: cur) (fun hm => h (List.mem_cons_of_mem _ hm))]
    simp

theorem linesAux_extract (bytes : List Char) :
    ∀ cur more, linesAux (bytes ++ more) cur
      = (extractLinesAux bytes cur).1
        ++ linesAux more (extractLinesAux bytes cur).2.reverse := by
  induction bytes with
  | nil => intro cur more; simp [extractLinesAux]
  | cons c cs ih =>
    intro cur more
    by_cases hc : c = '\n'
    · subst hc
      simp only [List.cons_append, linesAux, extractLinesAux, if_pos]
      cases hE : extractLinesAux cs [] with
      | mk ls pp =>
        have := ih [] more
        rw [hE] at this
        simp at this
        simp [this]
    · simp only [List.cons_append, linesAux, extractLinesAux, if_neg hc]
      exact ih (c :: cur) more

theorem extractLinesAux_partial_no_nl (bytes : List Char) :
    ∀ cur, '\n' ∉ cur → '\n' ∉ (extractLinesAux bytes cur).2 := by
  induction bytes with
  | nil => intro cur h; simpa [extractLinesAux] using h
  | cons c cs ih =>
    intro cur h
    by_cases hc : c = '\n'
    · subst hc
      simp only [extractLinesAux, if_pos]
      cases hE : extractLinesAux cs [] with
      | mk ls pp =>
        have := ih [] (by simp)
        rw [hE] at this
        simpa using this
    · simp only [extractLinesAux, if_neg hc]
      exact ih (c :: cur) (by
        intro hm
        rcases List.mem_cons.mp hm with h1 | h1
        · exact hc h1.symm
        · exact h h1)

theorem chunkedLinesAux_eq (cs : List (List Char)) :
    ∀ carry, '\n' ∉ carry →
      chunkedLinesAux cs carry = linesAux cs.flatten carry.reverse := by
  induction cs with
  | nil => intro carry _; cases carry <;> simp [chunkedLinesAux, linesAux]
  | cons c rest ih =>
    intro carry hnc
    have hsplit : extractLines (carry ++ c) = extractLinesAux c carry.reverse := by
      unfold extractLines
      rw [extractLinesAux_no_nl c [] hnc]
      simp
    cases hE : extractLinesAux c carry.reverse with
    | mk ls pp =>
      have hnp : '\n' ∉ pp := by
        have h2 := extractLinesAux_partial_no_nl c carry.reverse
          (by simpa using hnc)
        rw [hE] at h2
        exact h2
      have hL := linesAux_extract c carry.reverse rest.flatten
      rw [hE] at hL
      simp only [chunkedLinesAux, hsplit, hE, List.flatten_cons, hL]
      rw [ih pp hnp]

/-- C3: a source stream delivered in arbitrary refill chunks (each within
the buffer capacity) yields, line by line, exactly the lines of the same
bytes presented without any split — so every line is reconstructed
byte-for-byte across refill boundaries and the decoded record of each line
is the same. -/
theorem split_line_reconstruction :
    ∀ (cfg : Config) (contents : List Content) (chunks : List (List Char)),
      (∀ c ∈ chunks, c.length ≤ BUFFER_SIZE) →
      chunkedLines chunks = refLines chunks.flatten ∧
      (chunkedLines chunks).map (fun l => decodeLine cfg contents (tokenize l))
        = (refLines chunks.flatten).map
            (fun l => decodeLine cfg contents (tokenize l)) := by
  intro cfg contents chunks hcap
  have h := chunkedLinesAux_eq chunks [] (by simp)
  have h1 : chunkedLines chunks = refLines chunks.flatten := by
    simpa [chunkedLines, refLines] using h
  exact ⟨h1, by rw [h1]⟩

theorem split_line_reconstruction_witness :
    (∀ c ∈ [("10.0.0.1 1".toList), ("00\nnext\n".toList)],
      c.length ≤ BUFFER_SIZE) ∧
    chunkedLines [("10.0.0.1 1".toList), ("00\nnext\n".toList)]
      = refLines ([("10.0.0.1 1".toList), ("00\nnext\n".toList)].flatten) :=
  ⟨by decide,
   (split_line_reconstruction cfgZ [] _ (by decide)).1⟩

theorem resolveAll_none {toks : List (List Char)}
    (h : ∃ t ∈ toks, parse_content t = none) :
    resolveAll toks = none := by
  induction toks with
  | nil => simp at h
  | cons a rest ih =>
    obtain ⟨t, hmem, hnone⟩ := h
    rcases List.mem_cons.mp hmem with h1 | h1
    · subst h1
      rw [resolveAll, hnone]
    · rw [resolveAll, ih ⟨t, h1, hnone⟩]
      cases parse_content a <;> rfl

theorem resolveAll_some {toks : List (List Char)}
    (h : ∀ t ∈ toks, (parse_content t).isSome) :
    ∃ ks, resolveAll toks = some ks := by
  induction toks with
  | nil => exact ⟨[], rfl⟩
  | cons a rest ih =>
    obtain ⟨k, hk⟩ := Option.isSome_iff_exists.mp
      (h a (List.mem_cons_self _ _))
    obtain ⟨ks, hks⟩ := ih fun t ht => h t (List.mem_cons_of_mem _ ht)
    exact ⟨k :: ks, by rw [resolveAll, hk, hks]⟩

/-- C6: a `!data` schema directive is atomic — if any token fails field-name
resolution the whole directive is a recoverable `FormatError` and the
active schema is exactly what it was before, both at the level of
`bang_data` and through a full production step; only a directive all of
whose tokens resolve replaces the schema. -/
theorem bang_data_atomic :
    (∀ toks contents, (∃ t ∈ toks, parse_content t = none) →
      bang_data toks contents = (contents, true)) ∧
    (∀ toks contents, (∀ t ∈ toks, (parse_content t).isSome) →
      ∃ ks, resolveAll toks = some ks ∧
        bang_data toks contents = (ks, false)) ∧
    (∀ (cfg : Config) (s : State) line toks,
      s.active = true → s.exhausted = false → s.workPacket = none →
      s.input = [ReadEv.line line] → tokenize line = bangMarker :: toks →
      (∃ t ∈ toks, parse_content t = none) →
      (produceNext cfg s).2.contents = s.contents) ∧
    (∀ (cfg : Config) (s : State) line toks ks,
      s.active = true → s.exhausted = false → s.workPacket = none →
      s.input = [ReadEv.line line] → tokenize line = bangMarker :: toks →
      resolveAll toks = some ks →
      (produceNext cfg s).2.contents = ks) := by
  refine ⟨?_, ?_, ?_, ?_⟩
  · intro toks contents h
    simp [bang_data, resolveAll_none h]
  · intro toks contents h
    obtain ⟨ks, hks⟩ := resolveAll_some h
    exact ⟨ks, hks, by simp [bang_data, hks]⟩
  · intro cfg s line toks ha he hw hi htok hbad
    simp [produceNext, produceNextF, hi, ha, he, hw, htok, bang_data,
      resolveAll_none hbad, complain]
  · intro cfg s line toks ks ha he hw hi htok hsome
    simp [produceNext, produceNextF, hi, ha, he, hw, htok, bang_data,
      hsome]

theorem gate_total {t d : Nat} (h : 2 ^ SAMPLING_SHIFT ≤ t) :
    gate t d = true := by
  simp only [gate, decide_eq_true_eq]
  exact lt_of_lt_of_le (Nat.mod_lt _ (by norm_num [SAMPLING_SHIFT])) h

theorem produceNextF_halt {cfg : Config} {s : State}
    (h : s.active = false ∨ s.exhausted = true) :
    ∀ fuel, produceNextF cfg fuel s = (none, s) := by
  intro fuel
  cases fuel with
  | zero => rfl
  | succ n =>
    rw [produceNextF]
    rcases h with h | h <;> rw [if_neg] <;> simp [h]

theorem produceNext_halt {cfg : Config} {s : State}
    (h : s.active = false ∨ s.exhausted = true) :
    produceNext cfg s = (none, s) :=
  produceNextF_halt h _

theorem produceN_halt {cfg : Config} {s : State} (h : s.exhausted = true) :
    ∀ n, produceN cfg n s = (List.replicate n none, s) := by
  intro n
  induction n with
  | zero => rfl
  | succ m ih =>
    rw [produceN, produceNext_halt (Or.inr h)]
    simp only [ih, List.replicate_succ]

/-- C5: a runtime read failure is reported exactly once and moves the stage
to the terminal `Exhausted` state; every later production call returns "no
packet available" without touching the state (so the report count stays at
one); likewise an `Inactive` or `Exhausted` stage returns "no packet
available" immediately, unchanged, which is not an error. -/
theorem io_error_terminal :
    ∀ (cfg : Config) (s : State),
      ((s.active = false ∨ s.exhausted = true) →
        produceNext cfg s = (none, s)) ∧
      (∀ rest, s.active = true → s.exhausted = false → s.workPacket = none →
        s.input = ReadEv.ioError :: rest → s.ioReports = 0 →
        ∃ s2, produceNext cfg s = (none, s2) ∧ s2.exhausted = true ∧
          s2.ioReports = 1 ∧
          (∀ n, produceN cfg n s2 = (List.replicate n none, s2))) := by
  intro cfg s
  constructor
  · exact fun h => produceNext_halt h
  · intro rest ha he hw hi hio
    have hstep : produceNext cfg s
        = (none, { s with input := rest, exhausted := true, ioReports := s.ioReports + 1 }) := by
      simp [produceNext, produceNextF, ha, he, hw, hi]
    exact ⟨_, hstep, rfl, by simp [hio], produceN_halt rfl⟩

theorem io_error_terminal_witness :
    produceNext cfgZ stE = (none, stE2) ∧ stE2.exhausted = true ∧
    stE2.ioReports = 1 ∧ produceN cfgZ 2 stE2 = (List.replicate 2 none, stE2) := by
  obtain ⟨s2, h1, h2, h3, h4⟩ := (io_error_terminal cfgZ stE).2 []
    (by decide) (by decide) (by decide) (by decide) (by decide)
  have hc : produceNext cfgZ stE = (none, stE2) := by decide
  rw [hc] at h1
  have hs : stE2 = s2 := congrArg Prod.snd h1
  rw [← hs] at h2 h3 h4
  exact ⟨hc, h2, h3, h4 2⟩

theorem replicaLoop_shape {cfg : Config} {r : RecordData} {cnt : Nat} :
    ∀ rem extra draws p rem2 extra2 draws2,
      replicaLoop cfg r cnt rem extra draws = (some p, rem2, extra2, draws2) →
      ∃ e, p = buildPacket cfg r e cnt := by
  intro rem
  induction rem with
  | zero => intro extra draws p rem2 extra2 draws2 h; simp [replicaLoop] at h
  | succ m ih =>
    intro extra draws p rem2 extra2 draws2 h
    rw [replicaLoop] at h
    split at h
    · obtain ⟨h1, -⟩ := (Prod.mk.injEq _ _ _ _).mp h
      exact ⟨extra, (Option.some.injEq _ _).mp h1 |>.symm⟩
    · exact ih _ _ _ _ _ _ h

theorem produceNextF_shape (cfg : Config) :
    ∀ (fuel : Nat) (s : State), ∀ (p : Packet) (s2 : State),
      produceNextF cfg fuel s = (some p, s2) →
      ∃ r e c, p = buildPacket cfg r e c := by
  intro fuel s
  induction fuel, s using produceNextF.induct cfg with
  | case1 s =>
    intro p s2 h
    simp [produceNextF] at h
  | case2 fuel s hcond r rem hwp p0 rem2 extra2 draws2 hrl =>
    intro p s2 h
    rw [produceNextF, if_pos hcond] at h
    simp only [hwp, hrl] at h
    obtain ⟨e, he⟩ := replicaLoop_shape _ _ _ _ _ _ _ hrl
    obtain ⟨h1, -⟩ := Prod.mk.injEq .. |>.mp h
    exact ⟨r, e, 1, by rw [← ((Option.some.injEq _ _).mp h1), he]⟩
  | case3 fuel s hcond r rem hwp fst extra2 draws2 hrl ih =>
    intro p s2 h
    rw [produceNextF, if_pos hcond] at h
    simp only [hwp, hrl] at h
    exact ih p s2 h
  | case4 fuel s hcond hwp hin =>
    intro p s2 h
    rw [produceNextF, if_pos hcond] at h
    simp only [hwp, hin] at h
    simp at h
  | case5 fuel s hcond hwp rest hin =>
    intro p s2 h
    rw [produceNextF, if_pos hcond] at h
    simp only [hwp, hin] at h
    simp at h
  | case6 fuel s hcond hwp line rest hin htok ih =>
    intro p s2 h
    rw [produceNextF, if_pos hcond] at h
    simp only [hwp, hin, htok] at h ih
    exact ih p s2 h
  | case7 fuel s hcond hwp line rest hin ts cs2 hbd htok ih =>
    intro p s2 h
    rw [produceNextF, if_pos hcond] at h
    simp only [hwp, hin, htok, hbd, eq_self_iff_true, if_true] at h ih
    exact ih p s2 h
  | case8 fuel s hcond hwp line rest hin ts cs2 hbd htok ih =>
    intro p s2 h
    rw [produceNextF, if_pos hcond] at h
    simp only [hwp, hin, htok, hbd, eq_self_iff_true, if_true] at h ih
    exact ih p s2 h
  | case9 fuel s hcond hwp line rest hin t ts htok hbm hdir ih =>
    intro p s2 h
    rw [produceNextF, if_pos hcond] at h
    simp only [hwp, hin, htok, if_neg hbm, if_pos hdir] at h ih
    exact ih p s2 h
  | case10 fuel s hcond hwp line rest hin t ts htok hbm hdir hdec ih =>
    intro p s2 h
    rw [produceNextF, if_pos hcond] at h
    simp only [hwp, hin, htok, if_neg hbm, if_neg hdir, hdec] at h ih
    exact ih p s2 h
  | case11 fuel s hcond hwp line rest hin t ts htok hbm hdir r hdec p0 rem2
      extra2 draws2 hrl =>
    intro p s2 h
    rw [produceNextF, if_pos hcond] at h
    simp only [hwp, hin, htok, if_neg hbm, if_neg hdir, hdec, hrl] at h
    obtain ⟨e, he⟩ := replicaLoop_shape _ _ _ _ _ _ _ hrl
    obtain ⟨h1, -⟩ := Prod.mk.injEq .. |>.mp h
    exact ⟨r, e, _, by rw [← ((Option.some.injEq _ _).mp h1), he]⟩
  | case12 fuel s hcond hwp line rest hin t ts htok hbm hdir r hdec fst
      extra2 draws2 hrl ih =>
    intro p s2 h
    rw [produceNextF, if_pos hcond] at h
    simp only [hwp, hin, htok, if_neg hbm, if_neg hdir, hdec, hrl] at h ih
    exact ih p s2 h
  | case13 fuel s hcond =>
    intro p s2 h
    rw [produceNextF, if_neg hcond] at h
    simp at h

/-- C8: every packet ever produced has IP version 4 and IP header length 5
words, its buffer keeps the fixed synthesized size regardless of the decoded
length fields (lengths live in annotations), and under the zero-fill option
its payload bytes are all zero. -/
theorem packet_invariants :
    ∀ (cfg : Config) (s : State) (p : Packet) (s2 : State),
      produceNext cfg s = (some p, s2) →
      p.ipV = 4 ∧ p.ipHl = 5 ∧ p.payload.length = packetDataSize ∧
      (cfg.zero = true → ∀ b ∈ p.payload, b = 0) := by
  intro cfg s p s2 h
  obtain ⟨r, e, c, hp⟩ := produceNextF_shape cfg _ s p s2 h
  subst hp
  refine ⟨rfl, rfl, ?_, ?_⟩
  · by_cases hz : cfg.zero <;> simp [buildPacket, hz]
  · intro hz b hb
    simp [buildPacket, hz] at hb
    exact hb.2

theorem complain_inv {s : State} (h : stateInv s) : stateInv (complain s) := by
  obtain ⟨h1, h2⟩ := h
  by_cases hf : s.formatComplaint
  · simpa [stateInv, complain, hf] using h1
  · have hf0 : s.formatComplaint = false := by simpa using hf
    have h0 := h2 hf0
    simp [stateInv, complain, hf0, h0]

theorem produceNextF_inv (cfg : Config) :
    ∀ (fuel : Nat) (s : State), stateInv s →
      stateInv (produceNextF cfg fuel s).2 := by
  intro fuel s
  induction fuel, s using produceNextF.induct cfg with
  | case1 s =>
    intro hInv
    simpa [produceNextF] using hInv
  | case2 fuel s hcond r rem hwp p0 rem2 extra2 draws2 hrl =>
    intro hInv
    rw [produceNextF, if_pos hcond]
    simp only [hwp, hrl]
    simpa [stateInv] using hInv
  | case3 fuel s hcond r rem hwp fst extra2 draws2 hrl ih =>
    intro hInv
    rw [produceNextF, if_pos hcond]
    simp only [hwp, hrl]
    exact ih (by simpa [stateInv] using hInv)
  | case4 fuel s hcond hwp hin =>
    intro hInv
    rw [produceNextF, if_pos hcond]
    simp only [hwp, hin]
    simpa [stateInv] using hInv
  | case5 fuel s hcond hwp rest hin =>
    intro hInv
    rw [produceNextF, if_pos hcond]
    simp only [hwp, hin]
    simpa [stateInv] using hInv
  | case6 fuel s hcond hwp line rest hin htok ih =>
    intro hInv
    rw [produceNextF, if_pos hcond]
    simp only [hwp, hin, htok]
    simp only [hwp] at ih
    exact ih (by simpa [stateInv] using hInv)
  | case7 fuel s hcond hwp line rest hin ts cs2 hbd htok ih =>
    intro hInv
    rw [produceNextF, if_pos hcond]
    simp only [hwp, hin, htok, hbd, eq_self_iff_true, if_true]
    simp only [hwp] at ih
    exact ih (complain_inv (by simpa [stateInv] using hInv))
  | case8 fuel s hcond hwp line rest hin ts cs2 hbd htok ih =>
    intro hInv
    rw [produceNextF, if_pos hcond]
    simp only [hwp, hin, htok, hbd, eq_self_iff_true, if_true]
    simp only [hwp] at ih
    exact ih (by simpa [stateInv] using hInv)
  | case9 fuel s hcond hwp line rest hin t ts htok hbm hdir ih =>
    intro hInv
    rw [produceNextF, if_pos hcond]
    simp only [hwp, hin, htok, if_neg hbm, if_pos hdir]
    simp only [hwp] at ih
    exact ih (by simpa [stateInv] using hInv)
  | case10 fuel s hcond hwp line rest hin t ts htok hbm hdir hdec ih =>
    intro hInv
    rw [produceNextF, if_pos hcond]
    simp only [hwp, hin, htok, if_neg hbm, if_neg hdir, hdec]
    simp only [hwp] at ih
    exact ih (complain_inv (by simpa [stateInv] using hInv))
  | case11 fuel s hcond hwp line rest hin t ts htok hbm hdir r hdec p0 rem2
      extra2 draws2 hrl =>
    intro hInv
    rw [produceNextF, if_pos hcond]
    simp only [hwp, hin, htok, if_neg hbm, if_neg hdir, hdec, hrl]
    simpa [stateInv] using hInv
  | case12 fuel s hcond hwp line rest hin t ts htok hbm hdir r hdec fst
      extra2 draws2 hrl ih =>
    intro hInv
    rw [produceNextF, if_pos hcond]
    simp only [hwp, hin, htok, if_neg hbm, if_neg hdir, hdec, hrl]
    simp only [hwp] at ih
    exact ih (by simpa [stateInv] using hInv)
  | case13 fuel s hcond =>
    intro hInv
    rw [produceNextF, if_neg hcond]
    simpa using hInv

theorem produceN_inv (cfg : Config) :
    ∀ (n : Nat) (s : State), stateInv s → stateInv (produceN cfg n s).2 := by
  intro n
  induction n with
  | zero => intro s h; simpa [produceN] using h
  | succ m ih =>
    intro s h
    rw [produceN]
    cases hp : produceNext cfg s with
    | mk p s1 =>
      simp only [hp]
      cases hq : produceN cfg m s1 with
      | mk ps s2 =>
        simp only [hq]
        have h1 : stateInv s1 := by
          have h2 := produceNextF_inv cfg (s.input.length + 1 + 1) s h
          rw [show produceNextF cfg (s.input.length + 1 + 1) s
              = produceNext cfg s from rfl, hp] at h2
          exact h2
        have h3 := ih s1 h1
        rw [hq] at h3
        simpa using h3

/-- C7: within one run a `FormatError` complaint is logged at most once no
matter how many records are malformed — from a fresh state the complaint
counter never exceeds one across any number of production calls; a
malformed data record is dropped (the complaint counter rising only if the
complaint bit was still clear, which it then sets) and the same call goes
on to decode the next, valid record correctly. -/
theorem format_complaint_once :
    (∀ (cfg : Config) (n : Nat) (s : State),
      s.formatComplaint = false → s.complaints = 0 →
      (produceN cfg n s).2.complaints ≤ 1) ∧
    (∀ (cfg : Config) (s : State) bad bt btoks good gt gtoks rest r,
      cfg.multipacket = false → 2 ^ SAMPLING_SHIFT ≤ cfg.samplingProb →
      s.active = true → s.exhausted = false → s.workPacket = none →
      s.input = ReadEv.line bad :: ReadEv.line good :: rest →
      tokenize bad = bt :: btoks → isDirectiveTok bt = false →
      bt ≠ bangMarker → decodeLine cfg s.contents (bt :: btoks) = none →
      tokenize good = gt :: gtoks → isDirectiveTok gt = false →
      gt ≠ bangMarker → decodeLine cfg s.contents (gt :: gtoks) = some r →
      ∃ s2, produceNext cfg s = (some (buildPacket cfg r 0 r.count), s2) ∧
        s2.input = rest ∧ s2.formatComplaint = true ∧
        s2.complaints
          = (if s.formatComplaint then s.complaints else s.complaints + 1)) := by
  constructor
  · intro cfg n s hf hc
    exact (produceN_inv cfg n s ⟨by omega, fun _ => hc⟩).1
  · intro cfg s bad bt btoks good gt gtoks rest r hm ht ha he hw hi htb
      hdirb hbmb hdecb htg hdirg hbmg hdecg
    refine ⟨{ s with input := rest, workPacket := none,
                     formatComplaint := true,
                     complaints := (if s.formatComplaint then s.complaints
                                    else s.complaints + 1),
                     multipacketExtraLength := r.iplen,
                     draws := s.draws.tail }, ?_, ?_, ?_, ?_⟩
    · simp [produceNext, produceNextF, ha, he, hw, hi, htb, hdirb, hbmb,
        hdecb, htg, hdirg, hbmg, hdecg, hm, complain, replicaLoop,
        gate_total ht]
    · simp
    · simp
    · simp

theorem replica_chain (cfg : Config)
    (ht : 2 ^ SAMPLING_SHIFT ≤ cfg.samplingProb) :
    ∀ (k rem : Nat) (r : RecordData) (s : State),
      s.active = true → s.exhausted = false →
      s.workPacket = some (r, rem) → 1 ≤ rem → k ≤ rem →
      ∃ (pkts : List Packet) (s2 : State),
        produceN cfg k s = (pkts.map some, s2) ∧
        pkts.length = k ∧ (∀ p ∈ pkts, ∃ e, p = buildPacket cfg r e 1) ∧
        s2.active = true ∧ s2.exhausted = false ∧ s2.input = s.input ∧
        s2.contents = s.contents ∧
        s2.workPacket = (if k = rem then none else some (r, rem - k)) := by
  intro k
  induction k with
  | zero =>
    intro rem r s ha he hw h1 hk
    refine ⟨[], s, rfl, rfl, by simp, ha, he, rfl, rfl, ?_⟩
    rw [if_neg (by omega), hw]
    simp
  | succ k2 ih =>
    intro rem r s ha he hw h1 hk
    cases rem with
    | zero => omega
    | succ m =>
      have hstep : produceNext cfg s
          = (some (buildPacket cfg r s.multipacketExtraLength 1),
             { s with workPacket := if m = 0 then none else some (r, m),
                      multipacketExtraLength
                        := s.multipacketExtraLength + r.iplen,
                      draws := s.draws.tail }) := by
        simp [produceNext, produceNextF, ha, he, hw, replicaLoop,
          gate_total ht]
      by_cases hm0 : m = 0
      · subst hm0
        have hk0 : k2 = 0 := by omega
        subst hk0
        refine ⟨[buildPacket cfg r s.multipacketExtraLength 1],
          { s with workPacket := none,
                   multipacketExtraLength := s.multipacketExtraLength + r.iplen,
                   draws := s.draws.tail },
          ?_, rfl, ?_, ha, he, rfl, rfl, by simp⟩
        · rw [produceN, hstep]
          simp [produceN]
        · intro p hp
          simp at hp
          exact ⟨s.multipacketExtraLength, hp⟩
      · have h1m : 1 ≤ m := by omega
        have hk2 : k2 ≤ m := by omega
        obtain ⟨pkts, s2, hPN, hlen, hall, ha2, he2, hin2, hc2, hwp2⟩ :=
          ih m r { s with workPacket := if m = 0 then none else some (r, m),
                          multipacketExtraLength
                            := s.multipacketExtraLength + r.iplen,
                          draws := s.draws.tail }
            (by simp [ha]) (by simp [he]) (by simp [if_neg hm0]) h1m hk2
        refine ⟨buildPacket cfg r s.multipacketExtraLength 1 :: pkts, s2,
          ?_, by simp [hlen], ?_, ha2, he2, by simpa using hin2,
          by simpa using hc2, ?_⟩
        · rw [produceN, hstep]
          simp [hPN]
        · intro p hp
          rcases List.mem_cons.mp hp with h | h
          · exact ⟨s.multipacketExtraLength, h⟩
          · exact hall p h
        · rw [hwp2]
          by_cases hq : k2 = m
          · simp [hq]
          · rw [if_neg hq, if_neg (by omega), Nat.succ_sub_succ]

theorem first_step_multipacket (cfg : Config) (s : State) (line : List Char)
    (rest : List ReadEv) (t : List Char) (toks : List (List Char))
    (r : RecordData) (m : Nat)
    (ht : 2 ^ SAMPLING_SHIFT ≤ cfg.samplingProb)
    (hm : cfg.multipacket = true)
    (ha : s.active = true) (he : s.exhausted = false)
    (hw : s.workPacket = none) (hi : s.input = ReadEv.line line :: rest)
    (htok : tokenize line = t :: toks) (hdir : isDirectiveTok t = false)
    (hbm : t ≠ bangMarker)
    (hdec : decodeLine cfg s.contents (t :: toks) = some r)
    (hc : r.count = m + 1) :
    produceNext cfg s
      = (some (buildPacket cfg r 0 1),
         { s with input := rest,
                  workPacket := if m = 0 then none else some (r, m),
                  multipacketExtraLength := r.iplen,
                  draws := s.draws.tail }) := by
  simp [produceNext, produceNextF, ha, he, hw, hi, htok, hdir, hbm, hdec,
    hm, hc, replicaLoop, gate_total ht]

theorem first_step_single (cfg : Config) (s : State) (line : List Char)
    (rest : List ReadEv) (t : List Char) (toks : List (List Char))
    (r : RecordData)
    (ht : 2 ^ SAMPLING_SHIFT ≤ cfg.samplingProb)
    (hm : cfg.multipacket = false)
    (ha : s.active = true) (he : s.exhausted = false)
    (hw : s.workPacket = none) (hi : s.input = ReadEv.line line :: rest)
    (htok : tokenize line = t :: toks) (hdir : isDirectiveTok t = false)
    (hbm : t ≠ bangMarker)
    (hdec : decodeLine cfg s.contents (t :: toks) = some r) :
    produceNext cfg s
      = (some (buildPacket cfg r 0 r.count),
         { s with input := rest, workPacket := none,
                  multipacketExtraLength := r.iplen,
                  draws := s.draws.tail }) := by
  simp [produceNext, produceNextF, ha, he, hw, hi, htok, hdir, hbm, hdec,
    hm, replicaLoop, gate_total ht]

/-- C1: with multipacket enabled, a record whose decoded replica count is
`N ≥ 1` is exhausted by exactly `N` production calls when no draw is
rejected — each of the `N` calls returns one packet cloned from the same
decoded record, after the `N`-th call the continuation is cleared and the
input has advanced by exactly one line, and before the `N`-th call the
continuation is still pending; with multipacket disabled or `N = 1`, a
single call suffices and the count is recorded only as the packet's count
annotation. -/
theorem multipacket_replication :
    ∀ (cfg : Config) (s : State) line rest t toks r N,
      2 ^ SAMPLING_SHIFT ≤ cfg.samplingProb →
      s.active = true → s.exhausted = false → s.workPacket = none →
      s.input = ReadEv.line line :: rest → tokenize line = t :: toks →
      isDirectiveTok t = false → t ≠ bangMarker →
      decodeLine cfg s.contents (t :: toks) = some r → r.count = N →
      1 ≤ N →
      ((cfg.multipacket = true →
        (∃ (pkts : List Packet) (s2 : State),
          produceN cfg N s = (pkts.map some, s2) ∧
          pkts.length = N ∧ (∀ p ∈ pkts, ∃ e, p = buildPacket cfg r e 1) ∧
          s2.workPacket = none ∧ s2.input = rest) ∧
        (∀ k, 1 ≤ k → k < N →
          (produceN cfg k s).2.workPacket ≠ none)) ∧
       ((cfg.multipacket = false ∨ N = 1) →
        ∃ s2, produceNext cfg s = (some (buildPacket cfg r 0 r.count), s2) ∧
          s2.workPacket = none ∧ s2.input = rest)) := by
  intro cfg s line rest t toks r N ht ha he hw hi htok hdir hbm hdec hN h1
  constructor
  · intro hm
    cases N with
    | zero => omega
    | succ M =>
      have hstep := first_step_multipacket cfg s line rest t toks r M ht hm
        ha he hw hi htok hdir hbm hdec hN
      constructor
      · by_cases hM : M = 0
        · subst hM
          refine ⟨[buildPacket cfg r 0 1],
            { s with input := rest, workPacket := none,
                     multipacketExtraLength := r.iplen,
                     draws := s.draws.tail }, ?_, rfl, ?_, rfl, rfl⟩
          · rw [produceN, hstep]
            simp [produceN]
          · intro p hp
            simp at hp
            exact ⟨0, hp⟩
        · obtain ⟨pkts, s2, hPN, hlen, hall, ha2, he2, hin2, hc2, hwp2⟩ :=
            replica_chain cfg ht M M r
              { s with input := rest,
                       workPacket := if M = 0 then none else some (r, M),
                       multipacketExtraLength := r.iplen,
                       draws := s.draws.tail }
              (by simp [ha]) (by simp [he]) (by simp [if_neg hM])
              (by omega) le_rfl
          refine ⟨buildPacket cfg r 0 1 :: pkts, s2, ?_, by simp [hlen],
            ?_, by simpa using hwp2, by simpa using hin2⟩
          · rw [produceN, hstep]
            simp [hPN]
          · intro p hp
            rcases List.mem_cons.mp hp with h | h
            · exact ⟨0, h⟩
            · exact hall p h
      · intro k hk1 hkN
        cases k with
        | zero => omega
        | succ k2 =>
          have hM : ¬M = 0 := by omega
          obtain ⟨pkts, s2, hPN, hlen, hall, ha2, he2, hin2, hc2, hwp2⟩ :=
            replica_chain cfg ht k2 M r
              { s with input := rest,
                       workPacket := if M = 0 then none else some (r, M),
                       multipacketExtraLength := r.iplen,
                       draws := s.draws.tail }
              (by simp [ha]) (by simp [he]) (by simp [if_neg hM])
              (by omega) (by omega)
          rw [produceN, hstep]
          simp only [hPN]
          rw [hwp2, if_neg (by omega)]
          simp
  · intro hm2
    rcases hm2 with hm2 | hm2
    · exact ⟨{ s with input := rest, workPacket := none,
                      multipacketExtraLength := r.iplen,
                      draws := s.draws.tail },
        first_step_single cfg s line rest t toks r ht hm2 ha he hw
          hi htok hdir hbm hdec, rfl, rfl⟩
    · by_cases hmp : cfg.multipacket = true
      · have hc : r.count = 0 + 1 := by omega
        have hstep := first_step_multipacket cfg s line rest t toks r 0 ht
          hmp ha he hw hi htok hdir hbm hdec hc
        refine ⟨{ s with input := rest, workPacket := none,
                         multipacketExtraLength := r.iplen,
                         draws := s.draws.tail }, ?_, rfl, rfl⟩
        rw [hstep]
        have hr1 : r.count = 1 := by omega
        simp [hr1]
      · have hmf : cfg.multipacket = false := by simpa using hmp
        exact ⟨{ s with input := rest, workPacket := none,
                        multipacketExtraLength := r.iplen,
                        draws := s.draws.tail },
          first_step_single cfg s line rest t toks r ht hmf ha he hw
            hi htok hdir hbm hdec, rfl, rfl⟩

theorem multipacket_replication_witness :
    produceN cfgM 3 stM = ([some pktM, some pktM, some pktM], stM2) ∧
    (produceN cfgM 1 stM).2.workPacket ≠ none ∧
    (produceN cfgM 2 stM).2.workPacket ≠ none ∧
    stM2.workPacket = none ∧ (produceN cfgM 3 stM).2.workPacket = none := by
  have happ := multipacket_replication cfgM stM
    ("10.0.0.3 10.0.0.4 3".toList) [] ("10.0.0.3".toList)
    [("10.0.0.4".toList), ("3".toList)] recM 3 (by decide) (by decide)
    (by decide) (by decide) (by decide) (by decide) (by decide) (by decide)
    (by decide) (by decide) (by decide)
  have hmid := happ.1 (by decide)
  exact ⟨by decide, hmid.2 1 (by decide) (by decide),
    hmid.2 2 (by decide) (by decide), by decide, by decide⟩

theorem format_complaint_once_witness :
    (produceN cfgZ 3 stF).2.complaints ≤ 1 ∧
    produceNext cfgZ stF = (some (buildPacket cfgZ recF 0 1), stF2) ∧
    stF2.input = [] ∧ stF2.formatComplaint = true ∧ stF2.complaints = 1 := by
  have h1 := format_complaint_once.1 cfgZ 3 stF (by decide) (by decide)
  obtain ⟨s2, g1, g2, g3, g4⟩ := format_complaint_once.2 cfgZ stF
    ("abc".toList) ("abc".toList) [] ("100".toList) ("100".toList) [] []
    recF (by decide) (by decide) (by decide) (by decide) (by decide)
    (by decide) (by decide) (by decide) (by decide) (by decide)
    (by decide) (by decide) (by decide) (by decide)
  have hc : produceNext cfgZ stF = (some (buildPacket cfgZ recF 0 1), stF2) := by
    decide
  rw [hc] at g1
  have hs : stF2 = s2 := congrArg Prod.snd g1
  rw [← hs] at g2 g3 g4
  exact ⟨h1, hc, g2, g3, by rw [g4]; decide⟩

theorem replicaLoop_zero (c : Config) (r : RecordData) (cnt extra : Nat)
    (d : List Nat) : replicaLoop c r cnt 0 extra d = (none, 0, extra, d) :=
  rfl

theorem replicaLoop_succ {c : Config}
    (hacc : 2 ^ SAMPLING_SHIFT ≤ c.samplingProb) (r : RecordData)
    (cnt m extra : Nat) (d : List Nat) :
    replicaLoop c r cnt (m + 1) extra d
      = (some (buildPacket c r extra cnt), m, extra + r.iplen, d.tail) := by
  simp [replicaLoop, gate_total hacc]

theorem buildPacket_sub (cfg : Config) (g2 : RecordData) (f2 : Nat → Nat)
    (hz : cfg.zero = true) (r : RecordData) (e c : Nat) :
    buildPacket { cfg with garbage := g2, filler := f2 } r e c
      = buildPacket cfg r e c := by
  simp [buildPacket, hz]

theorem decodeLine_sub (cfg : Config) (g2 : RecordData) (f2 : Nat → Nat)
    (hz : cfg.zero = true) (cs : List Content) (ts : List (List Char)) :
    decodeLine { cfg with garbage := g2, filler := f2 } cs ts
      = decodeLine cfg cs ts := by
  simp [decodeLine, baseRecord, hz]

theorem produceNextF_sim (cfg : Config) (g2 : RecordData) (f2 : Nat → Nat)
    (hz : cfg.zero = true) (hp : cfg.samplingProb = 2 ^ SAMPLING_SHIFT) :
    ∀ (fuel : Nat) (s : State) (d2 : List Nat),
      (produceNextF { cfg with garbage := g2, filler := f2 } fuel
          { s with draws := d2 }).1 = (produceNextF cfg fuel s).1 ∧
      ∃ d3, (produceNextF { cfg with garbage := g2, filler := f2 } fuel
          { s with draws := d2 }).2
          = { (produceNextF cfg fuel s).2 with draws := d3 } := by
  have hacc : 2 ^ SAMPLING_SHIFT ≤ cfg.samplingProb := le_of_eq hp.symm
  have hacc2 : 2 ^ SAMPLING_SHIFT
      ≤ ({ cfg with garbage := g2, filler := f2 } : Config).samplingProb :=
    hacc
  intro fuel s
  induction fuel, s using produceNextF.induct cfg with
  | case1 s =>
    intro d2
    exact ⟨rfl, d2, rfl⟩
  | case2 fuel s hcond r rem hwp p0 rem2 extra2 draws2 hrl =>
    intro d2
    cases rem with
    | zero =>
      rw [replicaLoop_zero] at hrl
      simp at hrl
    | succ m =>
      refine ⟨?_, d2.tail, ?_⟩ <;>
        simp [produceNextF, hcond, hwp, replicaLoop_succ hacc,
          replicaLoop_succ hacc2, buildPacket_sub cfg g2 f2 hz]
  | case3 fuel s hcond r rem hwp fst extra2 draws2 hrl ih =>
    intro d2
    cases rem with
    | succ m =>
      rw [replicaLoop_succ hacc] at hrl
      simp at hrl
    | zero =>
      rw [replicaLoop_zero] at hrl
      simp only [Prod.mk.injEq] at hrl
      obtain ⟨-, -, h3, h4⟩ := hrl
      subst h3
      subst h4
      simp [produceNextF, hcond, hwp, replicaLoop_zero] at ih ⊢
      exact ih d2
  | case4 fuel s hcond hwp hin =>
    intro d2
    refine ⟨?_, d2, ?_⟩ <;> simp [produceNextF, hcond, hwp, hin]
  | case5 fuel s hcond hwp rest hin =>
    intro d2
    refine ⟨?_, d2, ?_⟩ <;> simp [produceNextF, hcond, hwp, hin]
  | case6 fuel s hcond hwp line rest hin htok ih =>
    intro d2
    simp [produceNextF, hcond, hwp, hin, htok] at ih ⊢
    exact ih d2
  | case7 fuel s hcond hwp line rest hin ts cs2 hbd htok ih =>
    intro d2
    simp [produceNextF, hcond, hwp, hin, htok, hbd, complain] at ih ⊢
    exact ih d2
  | case8 fuel s hcond hwp line rest hin ts cs2 hbd htok ih =>
    intro d2
    simp [produceNextF, hcond, hwp, hin, htok, hbd] at ih ⊢
    exact ih d2
  | case9 fuel s hcond hwp line rest hin t ts htok hbm hdir ih =>
    intro d2
    simp [produceNextF, hcond, hwp, hin, htok, hbm, hdir] at ih ⊢
    exact ih d2
  | case10 fuel s hcond hwp line rest hin t ts htok hbm hdir hdec ih =>
    intro d2
    simp [produceNextF, hcond, hwp, hin, htok, hbm, hdir, hdec, complain,
      decodeLine_sub cfg g2 f2 hz] at ih ⊢
    exact ih d2
  | case11 fuel s hcond hwp line rest hin t ts htok hbm hdir r hdec p0 rem2
      extra2 draws2 hrl =>
    intro d2
    cases hcnt : (if cfg.multipacket = true then r.count else 1) with
    | zero =>
      rw [hcnt, replicaLoop_zero] at hrl
      simp at hrl
    | succ m =>
      rw [hcnt, replicaLoop_succ hacc] at hrl
      refine ⟨?_, d2.tail, ?_⟩ <;>
        simp [produceNextF, hcond, hwp, hin, htok, hbm, hdir, hdec, hcnt,
          decodeLine_sub cfg g2 f2 hz, replicaLoop_succ hacc,
          replicaLoop_succ hacc2, buildPacket_sub cfg g2 f2 hz]
  | case12 fuel s hcond hwp line rest hin t ts htok hbm hdir r hdec fst
      extra2 draws2 hrl ih =>
    intro d2
    cases hcnt : (if cfg.multipacket = true then r.count else 1) with
    | succ m =>
      rw [hcnt, replicaLoop_succ hacc] at hrl
      simp at hrl
    | zero =>
      rw [hcnt, replicaLoop_zero] at hrl
      simp only [Prod.mk.injEq] at hrl
      obtain ⟨-, -, h3, h4⟩ := hrl
      subst h3
      subst h4
      simp [produceNextF, hcond, hwp, hin, htok, hbm, hdir, hdec, hcnt,
        decodeLine_sub cfg g2 f2 hz, replicaLoop_zero] at ih ⊢
      exact ih d2
  | case13 fuel s hcond =>
    intro d2
    refine ⟨?_, d2, ?_⟩ <;>
      simp [produceNextF, hcond]

/-- C10: with zero-fill set and the sampling threshold at its full value
`2 ^ 28` (probability 1, every draw accepted), production is deterministic —
over the same line stream and the same configuration, runs that differ only
in the unspecified filler contents and in the random draw stream produce
identical packet sequences (headers, annotations and payload bytes alike). -/
theorem zero_fill_determinism :
    ∀ (cfg : Config) (g2 : RecordData) (f2 : Nat → Nat) (s : State)
      (d2 : List Nat) (n : Nat),
      cfg.zero = true → cfg.samplingProb = 2 ^ SAMPLING_SHIFT →
      (produceN { cfg with garbage := g2, filler := f2 } n
        { s with draws := d2 }).1 = (produceN cfg n s).1 := by
  intro cfg g2 f2 s d2 n hz hp
  induction n generalizing s d2 with
  | zero => rfl
  | succ m ih =>
    obtain ⟨h1, d3, h2⟩ := produceNextF_sim cfg g2 f2 hz hp
      (s.input.length + 1 + 1) s d2
    have h1p : (produceNext { cfg with garbage := g2, filler := f2 }
        { s with draws := d2 }).1 = (produceNext cfg s).1 := h1
    have h2p : (produceNext { cfg with garbage := g2, filler := f2 }
        { s with draws := d2 }).2
        = { (produceNext cfg s).2 with draws := d3 } := h2
    rw [produceN, produceN]
    cases hp1 : produceNext cfg s with
    | mk p1 s1 =>
      rw [hp1] at h1p h2p
      have hz1 : produceNext { cfg with garbage := g2, filler := f2 }
          { s with draws := d2 } = (p1, { s1 with draws := d3 }) :=
        Prod.ext_iff.mpr ⟨by rw [h1p], by rw [h2p]⟩
      rw [hz1]
      have hih := ih s1 d3
      cases hq : produceN cfg m s1 with
      | mk ps s2 =>
        cases hq2 : produceN { cfg with garbage := g2, filler := f2 } m
            { s1 with draws := d3 } with
        | mk ps2 s3 =>
          rw [hq, hq2] at hih
          simp only [hq, hq2]
          simpa using hih

theorem zero_fill_determinism_witness :
    (produceN cfgM2 4 { stM with draws := [5, 99] }).1
      = (produceN cfgM 4 stM).1 :=
  zero_fill_determinism cfgM recZ (fun k => k + 7) stM [5, 99] 4
    (by decide) (by decide)

theorem packet_invariants_witness :
    produceNext cfgZ stZ = (some pktZ, stZ2) ∧ pktZ.ipV = 4 ∧ pktZ.ipHl = 5 ∧
    pktZ.payload.length = packetDataSize ∧
    (cfgZ.zero = true → ∀ b ∈ pktZ.payload, b = 0) := by
  have hc : produceNext cfgZ stZ = (some pktZ, stZ2) := by decide
  obtain ⟨h1, h2, h3, h4⟩ := packet_invariants cfgZ stZ pktZ stZ2 hc
  exact ⟨hc, h1, h2, h3, h4⟩

theorem bang_data_atomic_witness :
    bang_data [("src".toList), ("bogus".toList)] [Content.W_TIMESTAMP]
      = ([Content.W_TIMESTAMP], true) ∧
    (∃ ks, resolveAll [("src".toList), ("count".toList)] = some ks ∧
      bang_data [("src".toList), ("count".toList)] [] = (ks, false)) :=
  ⟨bang_data_atomic.1 _ _ ⟨("bogus".toList), by decide, by decide⟩,
   bang_data_atomic.2.1 _ _ (by decide)⟩

/-- C2: the sampling gate accepts a uniformly drawn value exactly when it is
strictly below the threshold, so over the full range of the fixed-point
representation the number of accepted draws equals the threshold itself —
the acceptance probability is `threshold / 2 ^ 28`; the read-only
`sampling_prob` handler reports exactly that realized value, and it differs
from the requested probability by at most the fixed-point rounding error
`2 ^ -29` (rounding to the nearest multiple of `2 ^ -28`). -/
theorem sampling_fixed_point :
    ∀ p : ℚ, 0 ≤ p → p ≤ 1 →
      ((Finset.range (2 ^ SAMPLING_SHIFT)).filter
          (fun d => gate (samplingThreshold p) d = true)).card
        = samplingThreshold p ∧
      (∀ cfg : Config, cfg.samplingProb = samplingThreshold p →
        sampling_prob_handler cfg
          = (samplingThreshold p : ℚ) / 2 ^ SAMPLING_SHIFT) ∧
      |realizedProb (samplingThreshold p) - p| ≤ 1 / 2 ^ (SAMPLING_SHIFT + 1) := by
  intro p h0 h1
  have hr := abs_sub_round (p * 2 ^ SAMPLING_SHIFT)
  rw [abs_sub_le_iff] at hr
  obtain ⟨hr1, hr2⟩ := hr
  have hrn : 0 ≤ round (p * 2 ^ SAMPLING_SHIFT) := by
    by_contra hneg
    push_neg at hneg
    have hle : round (p * 2 ^ SAMPLING_SHIFT) ≤ -1 := by omega
    have hleq : ((round (p * 2 ^ SAMPLING_SHIFT) : ℤ) : ℚ) ≤ -1 := by
      exact_mod_cast hle
    have hx0 : (0 : ℚ) ≤ p * 2 ^ SAMPLING_SHIFT := by positivity
    linarith
  have hub : round (p * 2 ^ SAMPLING_SHIFT) ≤ 2 ^ SAMPLING_SHIFT := by
    by_contra hgt
    push_neg at hgt
    have hge : (2 : ℤ) ^ SAMPLING_SHIFT + 1 ≤ round (p * 2 ^ SAMPLING_SHIFT) := by
      omega
    have hgeq : ((2 : ℚ) ^ SAMPLING_SHIFT + 1)
        ≤ ((round (p * 2 ^ SAMPLING_SHIFT) : ℤ) : ℚ) := by
      exact_mod_cast hge
    have hx1 : p * 2 ^ SAMPLING_SHIFT ≤ 2 ^ SAMPLING_SHIFT := by
      have := mul_le_mul_of_nonneg_right h1
        (by positivity : (0 : ℚ) ≤ 2 ^ SAMPLING_SHIFT)
      linarith
    linarith
  have htq : ((samplingThreshold p : Nat) : ℚ)
      = ((round (p * 2 ^ SAMPLING_SHIFT) : ℤ) : ℚ) := by
    have h4 : (((round (p * 2 ^ SAMPLING_SHIFT)).toNat : ℤ))
        = round (p * 2 ^ SAMPLING_SHIFT) := Int.toNat_of_nonneg hrn
    unfold samplingThreshold
    exact_mod_cast congrArg (fun z : ℤ => (z : ℚ)) h4
  have ht_le : samplingThreshold p ≤ 2 ^ SAMPLING_SHIFT := by
    unfold samplingThreshold
    exact Int.toNat_le.mpr (by exact_mod_cast hub)
  refine ⟨?_, ?_, ?_⟩
  · have hfilter : (Finset.range (2 ^ SAMPLING_SHIFT)).filter
        (fun d => gate (samplingThreshold p) d = true)
        = Finset.range (min (samplingThreshold p) (2 ^ SAMPLING_SHIFT)) := by
      ext d
      simp only [Finset.mem_filter, Finset.mem_range, gate, decide_eq_true_eq,
        lt_min_iff]
      constructor
      · rintro ⟨hd, hacc⟩
        rw [Nat.mod_eq_of_lt hd] at hacc
        exact ⟨hacc, hd⟩
      · rintro ⟨hdt, hd⟩
        exact ⟨hd, by rw [Nat.mod_eq_of_lt hd]; exact hdt⟩
    rw [hfilter, Finset.card_range, min_eq_left ht_le]
  · intro cfg hc
    simp [sampling_prob_handler, hc, realizedProb]
  · rw [abs_le, realizedProb, htq]
    have h28 : ((2 : ℚ) ^ SAMPLING_SHIFT) = 268435456 := by
      norm_num [SAMPLING_SHIFT]
    have h29 : ((2 : ℚ) ^ (SAMPLING_SHIFT + 1)) = 536870912 := by
      norm_num [SAMPLING_SHIFT]
    rw [h28] at hr1 hr2 ⊢
    rw [h29]
    constructor
    · linarith
    · linarith

theorem sampling_fixed_point_witness :
    (0 : ℚ) ≤ 1/4 ∧ (1/4 : ℚ) ≤ 1 ∧
    ((Finset.range (2 ^ SAMPLING_SHIFT)).filter
        (fun d => gate (samplingThreshold (1/4)) d = true)).card
      = samplingThreshold (1/4) ∧
    |realizedProb (samplingThreshold (1/4)) - 1/4| ≤ 1 / 2 ^ (SAMPLING_SHIFT + 1) :=
  ⟨by norm_num, by norm_num,
   (sampling_fixed_point (1/4) (by norm_num) (by norm_num)).1,
   (sampling_fixed_point (1/4) (by norm_num) (by norm_num)).2.2⟩

theorem tcp_flags_parsing_witness :
    parseFlags ("Sz".toList) = none ∧
    ((18 : Nat).testBit 4 = true ↔ 'A' ∈ ("SA".toList)) := by
  constructor
  · exact tcp_flags_parsing.1 ("Sz".toList) 'z' (by decide) (by decide)
  · exact tcp_flags_parsing.2 ("SA".toList) 18 (by decide) 'A' 4 (by decide)

end IPSumDump
